import Mathlib

/-!
Verification development for the `csv-async` crate's asynchronous CSV reader
(`src/async_reader.rs`, `src/lib.rs`).

The reader is embedded shallowly as a pure state machine.  The asynchronous
buffered byte source together with the external `csv_core` tokenizing engine
are collapsed to a row-level step function `nextRow` over the remaining input
bytes: the driver loop in `read_byte_record_impl` re-invokes the tokenizer
until it yields `Record` or `End`, growing buffers and pulling bytes as
needed, and the only observable effects of one whole loop run are the bytes
consumed, the tokenizer's running line counter, and the fields produced —
exactly what `nextRow` returns.  Machine integers (`u64`, `usize`) become
`Nat`: the code uses `checked_add` (panics rather than wraps), so no modular
arithmetic is observable.
-/

namespace CsvAsync

/-- A byte, as a natural number `< 256` (the bound is never needed). -/
abbrev Byte := Nat

/-- `Position { byte, line, record }` from `byte_record.rs` (re-exported by
`lib.rs`).  Modelled from the spec: "Position: {byte offset: u64, line: u64
(1-based), record index: u64 (0-based)} — the offset immediately preceding a
record's start" (the file itself is not under `src/`). -/
structure Position where
  byte : Nat
  line : Nat
  record : Nat
deriving DecidableEq, Repr

/-- `Position::new()`: byte 0, line 1, record 0 (the tests build the first
record's position as `newpos(0, 1, 0)`). -/
def Position.new : Position := ⟨0, 1, 0⟩

/-- `ByteRecord`: ordered sequence of byte-string fields, optionally carrying
a `Position`.  Modelled from the spec §3 (the contiguous backing buffer plus
strictly increasing end-offsets of `byte_record.rs` are abstracted to the
field list they encode; `byte_record.rs` is not under `src/`). -/
structure ByteRecord where
  fields : List (List Byte)
  pos : Option Position
deriving DecidableEq, Repr

/-- `ByteRecord::new()`. -/
def ByteRecord.new : ByteRecord := ⟨[], none⟩

/-- `ByteRecord::len()`: the number of fields. -/
def ByteRecord.len (r : ByteRecord) : Nat := r.fields.length

/-- `ByteRecord::is_empty()`: no fields.  Modelled from the spec
(`byte_record.rs` is not under `src/`): a record is a sequence of fields, and
the reader's empty-input path produces a record with zero fields. -/
def ByteRecord.is_empty (r : ByteRecord) : Bool := r.fields.isEmpty

/-- ASCII whitespace, the set `[\t\n\v\f\r ]` named by the `trim`
documentation in `src/async_reader.rs`. -/
def isAsciiWs (b : Byte) : Bool :=
  b == 9 || b == 10 || b == 11 || b == 12 || b == 13 || b == 32

/-- Strip ASCII whitespace from both ends of one field. -/
def trimField (f : List Byte) : List Byte :=
  ((f.dropWhile isAsciiWs).reverse.dropWhile isAsciiWs).reverse

/-- `ByteRecord::trim()`.  Modelled from the spec §4.2: "Trim operation
shifts field boundaries in place, stripping ASCII whitespace on the byte
view" (`byte_record.rs` is not under `src/`). -/
def ByteRecord.trim (r : ByteRecord) : ByteRecord :=
  { r with fields := r.fields.map trimField }

/-- `StringRecord`: same shape as `ByteRecord` with the backing bytes valid
UTF-8.  Modelled from the spec §3 (`string_record.rs` is not under `src/`);
fields are kept as byte lists, validity being enforced where the code runs
the validating conversion. -/
structure StringRecord where
  fields : List (List Byte)
  pos : Option Position
deriving DecidableEq, Repr

/-- `StringRecord::new()`. -/
def StringRecord.new : StringRecord := ⟨[], none⟩

/-- `StringRecord::trim()`.  Modelled from the spec §4.2: string trimming is
layered on top of byte trimming and additionally strips full Unicode
whitespace; the model keeps the ASCII part (no settled claim involves
non-ASCII whitespace, and `string_record.rs` is not under `src/`). -/
def StringRecord.trim (r : StringRecord) : StringRecord :=
  { r with fields := r.fields.map trimField }

/-- Is `b` a UTF-8 continuation byte (`0x80..=0xBF`)? -/
def utf8Cont (b : Byte) : Bool := 128 ≤ b && b ≤ 191

/-- Length in bytes of the longest valid UTF-8 prefix of `f`.  Modelled from
the spec: UTF-8 validation internals are out of scope, only the error
contract `{failing field index, valid-up-to byte offset}` matters. -/
def validUpTo : List Byte → Nat
  | [] => 0
  | b :: rest =>
    if b < 128 then 1 + validUpTo rest
    else if 194 ≤ b && b ≤ 223 then
      match rest with
      | c :: rest2 => if utf8Cont c then 2 + validUpTo rest2 else 0
      | [] => 0
    else if 224 ≤ b && b ≤ 239 then
      match rest with
      | c :: d :: rest2 =>
        if utf8Cont c && utf8Cont d
            && (b != 224 || 160 ≤ c) && (b != 237 || c ≤ 159) then
          3 + validUpTo rest2
        else 0
      | _ => 0
    else if 240 ≤ b && b ≤ 244 then
      match rest with
      | c :: d :: e :: rest2 =>
        if utf8Cont c && utf8Cont d && utf8Cont e
            && (b != 240 || 144 ≤ c) && (b != 244 || c ≤ 143) then
          4 + validUpTo rest2
        else 0
      | _ => 0
    else 0

/-- Is the whole byte list valid UTF-8? -/
def isUtf8 (f : List Byte) : Bool := validUpTo f == f.length

/-- `Utf8Error { field, valid_up_to }` from `error.rs`.  Modelled from the
spec §3/§7: the validating conversion reports "{failing field index,
valid-up-to byte offset}" (`error.rs` is not under `src/`). -/
structure Utf8Error where
  field : Nat
  valid_up_to : Nat
deriving DecidableEq, Repr

/-- Index and valid-up-to offset of the first non-UTF-8 field at or after
index `i`, if any. -/
def firstUtf8ErrorFrom (i : Nat) : List (List Byte) → Option Utf8Error
  | [] => none
  | f :: rest =>
    if isUtf8 f then firstUtf8ErrorFrom (i + 1) rest
    else some ⟨i, validUpTo f⟩

/-- Index and valid-up-to offset of the first non-UTF-8 field, if any. -/
def firstUtf8Error (fs : List (List Byte)) : Option Utf8Error :=
  firstUtf8ErrorFrom 0 fs

/-- `StringRecord::from_byte_record`: the fallible validating conversion.
Modelled from the spec §3 (`string_record.rs` is not under `src/`). -/
def StringRecord.from_byte_record (b : ByteRecord) :
    Except Utf8Error StringRecord :=
  match firstUtf8Error b.fields with
  | none => .ok ⟨b.fields, b.pos⟩
  | some e => .error e

/-- The error kinds of `error.rs` reachable in the embedding: the
width-mismatch error built in `ReaderState::add_record` and the UTF-8 error
built in `AsyncReader::headers` / during string reads.  (I/O errors cannot
arise: the byte source is a pure list.) -/
inductive Error where
  | unequalLengths (pos : Option Position) (expected_len : Nat) (len : Nat)
  | utf8 (pos : Option Position) (err : Utf8Error)
deriving DecidableEq, Repr

/-- `Trim` from `src/lib.rs`. -/
inductive Trim where
  | none
  | headers
  | fields
  | all
deriving DecidableEq, Repr, BEq

/-- `Trim::should_trim_fields` (`src/lib.rs`). -/
def Trim.should_trim_fields (t : Trim) : Bool :=
  t == Trim.fields || t == Trim.all

/-- `Trim::should_trim_headers` (`src/lib.rs`). -/
def Trim.should_trim_headers (t : Trim) : Bool :=
  t == Trim.headers || t == Trim.all

/-! ## The tokenizing engine, at its interface

Modelled from the spec: the external `csv_core` engine is specified only at
its five-way result contract (§4.3) plus a running line counter and a reset
operation (§6), under the default configuration (delimiter `,`, quote `"`,
double-quote escapes, CRLF-or-any-one-byte terminator, no escape byte, no
comment byte).  One whole run of the driver loop is one `nextRow` call on the
remaining input. -/

/-- The scanning mode of the row scanner: at the start of a field (where a
quote opens a quoted field), inside an unquoted stretch (quotes are
literal), inside a quoted stretch, or just after a quote inside a quoted
stretch (a second quote is a doubled-quote escape, anything else closes the
quoted stretch). -/
inductive Mode where
  | fieldStart
  | unquoted
  | quoted
  | quoteQuote
deriving DecidableEq, Repr

/-- Prepend byte `b` to the first (current) field of a field list. -/
def consField (b : Byte) (fs : List (List Byte)) : List (List Byte) :=
  match fs with
  | f :: rest => (b :: f) :: rest
  | [] => [[b]]

/-- Scan the fields of one row starting in mode `m`: fields separated by `,`
(byte 44), the row closed by a terminator (`\r\n`, `\r` or `\n`, consumed)
or by the end of the input.  Returns the fields, the number of bytes
consumed, and whether a terminator was consumed. -/
def scanRow (m : Mode) (inp : List Byte) : List (List Byte) × Nat × Bool :=
  match m, inp with
  | _, [] => ([[]], 0, false)
  | .fieldStart, 34 :: rest =>
    let (fs, n, t) := scanRow .quoted rest
    (fs, n + 1, t)
  | .quoted, 34 :: rest =>
    let (fs, n, t) := scanRow .quoteQuote rest
    (fs, n + 1, t)
  | .quoted, b :: rest =>
    let (fs, n, t) := scanRow .quoted rest
    (consField b fs, n + 1, t)
  | .quoteQuote, 34 :: rest =>
    let (fs, n, t) := scanRow .quoted rest
    (consField 34 fs, n + 1, t)
  | _, b :: rest =>
    if b == 10 then ([[]], 1, true)
    else if b == 13 then
      match rest with
      | 10 :: _ => ([[]], 2, true)
      | _ => ([[]], 1, true)
    else if b == 44 then
      let (fs, n, t) := scanRow .fieldStart rest
      ([] :: fs, n + 1, t)
    else
      let (fs, n, t) := scanRow .unquoted rest
      (consField b fs, n + 1, t)

/-- The row-level outcome of one whole driver-loop run: a complete row with
the total number of input bytes consumed, or `End` (with the trailing
terminator bytes that were consumed before the end was seen). -/
inductive RowResult where
  | row (fields : List (List Byte)) (n : Nat)
  | atEnd (n : Nat)
deriving DecidableEq, Repr

/-- Add `m` to the consumed-byte count of a `RowResult`. -/
def RowResult.addConsumed : RowResult → Nat → RowResult
  | .row fs n, m => .row fs (n + m)
  | .atEnd n, m => .atEnd (n + m)

/-- One whole driver-loop run of the tokenizing engine on the remaining
input: empty lines are skipped (consuming their terminators), an empty input
is `End`, anything else is the next complete row. -/
def nextRow (inp : List Byte) : RowResult :=
  match inp with
  | [] => .atEnd 0
  | 13 :: 10 :: rest => (nextRow rest).addConsumed 2
  | 13 :: rest => (nextRow rest).addConsumed 1
  | 10 :: rest => (nextRow rest).addConsumed 1
  | _ =>
    let (fs, n, _) := scanRow .fieldStart inp
    .row fs n

/-- Number of `\n` bytes in `l`: the running line counter of the engine
advances by one per `\n` consumed. -/
def count10 (l : List Byte) : Nat := l.countP (fun b => b == 10)

/-! ## The reader -/

instance {ε α : Type} [DecidableEq ε] [DecidableEq α] :
    DecidableEq (Except ε α) := fun x y =>
  match x, y with
  | .ok a, .ok b =>
    if h : a = b then .isTrue (by rw [h]) else .isFalse (by simp [h])
  | .error a, .error b =>
    if h : a = b then .isTrue (by rw [h]) else .isFalse (by simp [h])
  | .ok _, .error _ => .isFalse (by simp)
  | .error _, .ok _ => .isFalse (by simp)

/-- `Headers` (`src/async_reader.rs`): the header row in byte form and as the
result of the validating string conversion. -/
structure Headers where
  byte_record : ByteRecord
  string_record : Except Utf8Error StringRecord
deriving DecidableEq, Repr

/-- `AsyncReader` together with its `ReaderState` (`src/async_reader.rs`).
The buffered byte source becomes the full underlying byte list `input` plus
the source offset `srcOff` (bytes consumed so far / seek target); the
`csv_core` engine's persistent state visible at the row level is its running
line counter `coreLine`.  The remaining fields are `ReaderState` verbatim. -/
structure Reader where
  input : List Byte
  srcOff : Nat
  coreLine : Nat
  headers : Option Headers
  has_headers : Bool
  flexible : Bool
  trim : Trim
  first_field_count : Option Nat
  cur_pos : Position
  first : Bool
  seeked : Bool
  eof : Bool
deriving DecidableEq, Repr

/-- `AsyncReader::new` via `AsyncReaderBuilder` (`from_reader`): fresh state
with the given configuration; `cur_pos = Position::new()`, the engine's line
counter starts at 1. -/
def Reader.mk' (input : List Byte) (has_headers flexible : Bool)
    (trim : Trim) : Reader :=
  { input := input
    srcOff := 0
    coreLine := 1
    headers := none
    has_headers := has_headers
    flexible := flexible
    trim := trim
    first_field_count := none
    cur_pos := Position.new
    first := false
    seeked := false
    eof := false }

/-- `ReaderState::add_record` (`src/async_reader.rs` lines 1544-1563):
increment the record index; when not flexible, the first record fixes
`first_field_count`, and any later record of a different field count yields
`ErrorKind::UnequalLengths { pos, expected_len, len }`. -/
def Reader.add_record (st : Reader) (record : ByteRecord) :
    Reader × Option Error :=
  let i := st.cur_pos.record
  let st := { st with cur_pos := { st.cur_pos with record := i + 1 } }
  if !st.flexible then
    match st.first_field_count with
    | none =>
      ({ st with first_field_count := some record.len }, none)
    | some expected =>
      if record.len ≠ expected then
        (st, some (Error.unequalLengths record.pos expected record.len))
      else (st, none)
  else (st, none)

/-- `AsyncReader::read_byte_record_impl` (`src/async_reader.rs` lines
1271-1323): clear the record and stamp it with the current position; if
`eof` is set return `Ok(false)` untouched; otherwise run the driver loop —
collapsed to one `nextRow` call on the remaining input — advancing the
byte offset by the bytes consumed and taking the line from the engine's
counter; on `Record` hand the row to `add_record`, on `End` set `eof`. -/
def Reader.read_byte_record_impl (st : Reader) (record : ByteRecord) :
    Reader × ByteRecord × Except Error Bool :=
  let record := { record with fields := [], pos := some st.cur_pos }
  if st.eof then (st, record, .ok false)
  else
    let remaining := st.input.drop st.srcOff
    match nextRow remaining with
    | .atEnd n =>
      let newLine := st.coreLine + count10 (remaining.take n)
      let st := { st with
        srcOff := st.srcOff + n
        coreLine := newLine
        cur_pos := { st.cur_pos with
          byte := st.cur_pos.byte + n, line := newLine }
        eof := true }
      (st, record, .ok false)
    | .row fs n =>
      let newLine := st.coreLine + count10 (remaining.take n)
      let st := { st with
        srcOff := st.srcOff + n
        coreLine := newLine
        cur_pos := { st.cur_pos with
          byte := st.cur_pos.byte + n, line := newLine } }
      let record := { record with fields := fs }
      match st.add_record record with
      | (st, none) => (st, record, .ok true)
      | (st, some e) => (st, record, .error e)

/-- The `Headers` value built by `set_headers_impl` from a byte record
(`src/async_reader.rs` lines 1116-1144, `Err(bytes)` case): derive the
string form by the validating conversion, then trim both forms when the
trim policy covers headers. -/
def Reader.mkHeaders (st : Reader) (bytes : ByteRecord) : Headers :=
  let str_headers := StringRecord.from_byte_record bytes
  if st.trim.should_trim_headers then
    { byte_record := bytes.trim
      string_record := str_headers.map StringRecord.trim }
  else
    { byte_record := bytes, string_record := str_headers }

/-- `AsyncReader::set_headers_impl` applied to a byte record. -/
def Reader.set_headers_impl (st : Reader) (bytes : ByteRecord) : Reader :=
  { st with headers := some (st.mkHeaders bytes) }

/-- `AsyncReader::byte_headers` (`src/async_reader.rs` lines 1045-1052): if
no header row is cached, force-parse the first row (propagating any error)
and cache it; return the cached byte form. -/
def Reader.byte_headers (st : Reader) :
    Reader × Except Error ByteRecord :=
  match st.headers with
  | some h => (st, .ok h.byte_record)
  | none =>
    match st.read_byte_record_impl ByteRecord.new with
    | (st, _, .error e) => (st, .error e)
    | (st, record, .ok _) =>
      let h := st.mkHeaders record
      ({ st with headers := some h }, .ok h.byte_record)

/-- `AsyncReader::headers` (`src/async_reader.rs` lines 977-991): like
`byte_headers` but returning the string projection, or
`ErrorKind::Utf8 { pos, err }` with the byte record's position when the
cached conversion failed. -/
def Reader.headersQ (st : Reader) :
    Reader × Except Error StringRecord :=
  let resolve :=
    match st.headers with
    | some _ => (st, Except.ok ())
    | none =>
      match st.read_byte_record_impl ByteRecord.new with
      | (st, _, .error e) => (st, .error e)
      | (st, record, .ok _) =>
        ({ st with headers := some (st.mkHeaders record) }, .ok ())
  match resolve with
  | (st, .error e) => (st, .error e)
  | (st, .ok ()) =>
    match st.headers with
    | none => (st, .error (Error.utf8 none ⟨0, 0⟩))
    | some h =>
      match h.string_record with
      | .ok r => (st, .ok r)
      | .error err =>
        (st, .error (Error.utf8 h.byte_record.pos err))

/-- The part of `AsyncReader::read_byte_record` after its cached-header
special case (`src/async_reader.rs` lines 1248-1265): read a row; an error
propagates at once (leaving `first` unset).  On success mark `first`; if
never seeked and no headers are cached yet, cache this row, and with
`has_headers` enabled read and return a second row instead (trimming it if
the policy trims fields); when headers were already cached (or the reader
was seeked) trim if the policy trims fields and return the row. -/
def Reader.readAfterHeaderCheck (st : Reader) (record : ByteRecord) :
    Reader × ByteRecord × Except Error Bool :=
  match st.read_byte_record_impl record with
  | (st, record, .error e) => (st, record, .error e)
  | (st, record, .ok ok) =>
    let st := { st with first := true }
    if !st.seeked && st.headers.isNone then
      let st := st.set_headers_impl record
      if st.has_headers then
        match st.read_byte_record_impl record with
        | (st, record, res) =>
          let record :=
            if st.trim.should_trim_fields then record.trim else record
          (st, record, res)
      else (st, record, .ok ok)
    else
      let record :=
        if st.trim.should_trim_fields then record.trim else record
      (st, record, .ok ok)

/-- `AsyncReader::read_byte_record` (`src/async_reader.rs` lines 1231-1266):
the header-aware row read.  When never seeked, `has_headers` disabled and
the first row not yet yielded, a cached header row is yielded verbatim
(trimmed if the policy trims fields) with `Ok(!record.is_empty())`;
otherwise the read proceeds through `readAfterHeaderCheck`. -/
def Reader.read_byte_record (st : Reader) (record : ByteRecord) :
    Reader × ByteRecord × Except Error Bool :=
  if !st.seeked && !st.has_headers && !st.first then
    match st.headers with
    | some h =>
      let st := { st with first := true }
      let record := h.byte_record
      let record :=
        if st.trim.should_trim_fields then record.trim else record
      (st, record, .ok (!record.is_empty))
    | none => st.readAfterHeaderCheck record
  else st.readAfterHeaderCheck record

/-- `StringRecord::read` followed by the extra trim of
`AsyncReader::read_record` (`src/async_reader.rs` lines 1183-1192).  The
underlying byte read is `read_byte_record`; the string form is the
validating conversion (modelled from the spec: `string_record.rs` is not
under `src/`), reported as `ErrorKind::Utf8` on failure; `read_record` then
trims again when the policy trims fields. -/
def Reader.read_record (st : Reader) (record : StringRecord) :
    Reader × StringRecord × Except Error Bool :=
  match st.read_byte_record ⟨record.fields, record.pos⟩ with
  | (st, _, .error e) => (st, record, .error e)
  | (st, b, .ok ok) =>
    match StringRecord.from_byte_record b with
    | .error err => (st, record, .error (Error.utf8 b.pos err))
    | .ok r =>
      let r := if st.trim.should_trim_fields then r.trim else r
      (st, r, .ok ok)

/-- `AsyncReader::seek` (`src/async_reader.rs` lines 1500-1512): resolve
headers first (propagating any error), set `seeked`; when the target byte
offset equals the tracked one return at once; otherwise physically seek the
source, reset the engine and set its line counter to the caller-supplied
line, replace the tracked position verbatim, and clear `eof`. -/
def Reader.seek (st : Reader) (pos : Position) :
    Reader × Except Error Unit :=
  match st.byte_headers with
  | (st, .error e) => (st, .error e)
  | (st, .ok _) =>
    let st := { st with seeked := true }
    if pos.byte == st.cur_pos.byte then (st, .ok ())
    else
      ({ st with
          srcOff := pos.byte
          coreLine := pos.line
          cur_pos := pos
          eof := false }, .ok ())

/-! ## Stream adapters

The four adapters (`StringRecordsStream`, `StringRecordsIntoStream`,
`ByteRecordsStream`, `ByteRecordsIntoStream`) all drive the same logic: one
row read per item, `Ok(true) ↦ Some(Ok(clone))`, an error `↦ Some(Err)`,
`Ok(false)` ends the stream; borrowed and owned variants differ only in
ownership.  `byteRecordsFrom`/`stringRecordsFrom` list the items such a
stream yields, with fuel bounding the number of polls. -/

/-- Items yielded by a byte-record stream adapter started on `st` with the
reusable record `record`, polled at most `fuel` times. -/
def byteRecordsFrom (st : Reader) (record : ByteRecord) :
    Nat → List (Except Error ByteRecord)
  | 0 => []
  | fuel + 1 =>
    match st.read_byte_record record with
    | (st, record, .ok true) =>
      .ok record :: byteRecordsFrom st record fuel
    | (_, _, .ok false) => []
    | (st, record, .error e) =>
      .error e :: byteRecordsFrom st record fuel

/-- Items yielded by a string-record stream adapter started on `st` with the
reusable record `record`, polled at most `fuel` times. -/
def stringRecordsFrom (st : Reader) (record : StringRecord) :
    Nat → List (Except Error StringRecord)
  | 0 => []
  | fuel + 1 =>
    match st.read_record record with
    | (st, record, .ok true) =>
      .ok record :: stringRecordsFrom st record fuel
    | (_, _, .ok false) => []
    | (st, record, .error e) =>
      .error e :: stringRecordsFrom st record fuel

/-! ## Characterization of one driver-loop run -/

/-- With `eof` set, `read_byte_record_impl` returns "no more rows" with the
state untouched and the record cleared and stamped. -/
theorem impl_eof_step (st : Reader) (r : ByteRecord) (h : st.eof = true) :
    st.read_byte_record_impl r = (st, ⟨[], some st.cur_pos⟩, .ok false) := by
  simp [Reader.read_byte_record_impl, h]

/-- When the engine reports `End`, `read_byte_record_impl` consumes the
trailing bytes, sets `eof`, and returns "no more rows". -/
theorem impl_end_step (st : Reader) (r : ByteRecord) (n : Nat)
    (heof : st.eof = false)
    (h : nextRow (st.input.drop st.srcOff) = .atEnd n) :
    st.read_byte_record_impl r =
      ({ st with
          srcOff := st.srcOff + n
          coreLine := st.coreLine + count10 ((st.input.drop st.srcOff).take n)
          cur_pos := { st.cur_pos with
            byte := st.cur_pos.byte + n
            line := st.coreLine + count10 ((st.input.drop st.srcOff).take n) }
          eof := true },
        ⟨[], some st.cur_pos⟩, .ok false) := by
  simp [Reader.read_byte_record_impl, heof, h]

/-- When the engine yields a row, `read_byte_record_impl` advances the
source offset, the byte offset and the line counter over the consumed
bytes, then hands the row to `add_record`: the record index is incremented,
and (unless flexible) the first row fixes `first_field_count` while a later
row of a different width yields the `UnequalLengths` error carrying the
position stamped at the row's start. -/
theorem impl_row_step (st : Reader) (r : ByteRecord)
    (fs : List (List Byte)) (n : Nat)
    (heof : st.eof = false)
    (h : nextRow (st.input.drop st.srcOff) = .row fs n) :
    st.read_byte_record_impl r =
      (let newLine := st.coreLine + count10 ((st.input.drop st.srcOff).take n)
       let st1 : Reader := { st with
          srcOff := st.srcOff + n
          coreLine := newLine
          cur_pos := ⟨st.cur_pos.byte + n, newLine, st.cur_pos.record + 1⟩ }
       let rec1 : ByteRecord := ⟨fs, some st.cur_pos⟩
       if st.flexible then (st1, rec1, .ok true)
       else
         match st.first_field_count with
         | none =>
           ({ st1 with first_field_count := some fs.length }, rec1, .ok true)
         | some expected =>
           if fs.length = expected then (st1, rec1, .ok true)
           else
             (st1, rec1,
              .error (.unequalLengths (some st.cur_pos) expected fs.length))) := by
  simp only [Reader.read_byte_record_impl, heof, Bool.false_eq_true,
    if_false, h, Reader.add_record, ByteRecord.len]
  cases hf : st.flexible with
  | true => simp
  | false =>
    cases hffc : st.first_field_count with
    | none => simp
    | some expected =>
      by_cases hlen : fs.length = expected <;> simp [hlen]

/-- `read_byte_record_impl` never changes the configuration flags, the
cached headers, the underlying input, nor the `first`/`seeked` flags. -/
theorem impl_preserves (st : Reader) (r : ByteRecord) :
    ((st.read_byte_record_impl r).1.has_headers = st.has_headers)
    ∧ ((st.read_byte_record_impl r).1.flexible = st.flexible)
    ∧ ((st.read_byte_record_impl r).1.trim = st.trim)
    ∧ ((st.read_byte_record_impl r).1.headers = st.headers)
    ∧ ((st.read_byte_record_impl r).1.input = st.input)
    ∧ ((st.read_byte_record_impl r).1.first = st.first)
    ∧ ((st.read_byte_record_impl r).1.seeked = st.seeked) := by
  cases heof : st.eof with
  | true => simp [impl_eof_step st r heof]
  | false =>
    cases h : nextRow (st.input.drop st.srcOff) with
    | atEnd n => simp [impl_end_step st r n heof h]
    | row fs n =>
      rw [impl_row_step st r fs n heof h]
      cases hf : st.flexible with
      | true => simp
      | false =>
        cases hffc : st.first_field_count with
        | none => simp
        | some expected =>
          by_cases hlen : fs.length = expected <;> simp [hlen]

/-- A row read before any `first_field_count` is established (not flexible):
the row's field count fixes the expected width and the read succeeds. -/
theorem impl_first_row_step (st : Reader) (r : ByteRecord)
    (fs : List (List Byte)) (n : Nat)
    (heof : st.eof = false)
    (h : nextRow (st.input.drop st.srcOff) = .row fs n)
    (hflex : st.flexible = false)
    (hffc : st.first_field_count = none) :
    st.read_byte_record_impl r =
      ({ st with
          srcOff := st.srcOff + n
          coreLine := st.coreLine + count10 ((st.input.drop st.srcOff).take n)
          cur_pos := ⟨st.cur_pos.byte + n,
            st.coreLine + count10 ((st.input.drop st.srcOff).take n),
            st.cur_pos.record + 1⟩
          first_field_count := some fs.length },
        ⟨fs, some st.cur_pos⟩, .ok true) := by
  rw [impl_row_step st r fs n heof h]
  simp [hflex, hffc]

/-- A row read with an established expected width and a mismatching row
(not flexible): the read returns the `UnequalLengths` error carrying the
expected width, the actual width and the position stamped at the row's
start, with the position and source offset already advanced past the row. -/
theorem impl_width_error_step (st : Reader) (r : ByteRecord) (w : Nat)
    (fs : List (List Byte)) (n : Nat)
    (heof : st.eof = false)
    (h : nextRow (st.input.drop st.srcOff) = .row fs n)
    (hflex : st.flexible = false)
    (hffc : st.first_field_count = some w)
    (hne : fs.length ≠ w) :
    st.read_byte_record_impl r =
      ({ st with
          srcOff := st.srcOff + n
          coreLine := st.coreLine + count10 ((st.input.drop st.srcOff).take n)
          cur_pos := ⟨st.cur_pos.byte + n,
            st.coreLine + count10 ((st.input.drop st.srcOff).take n),
            st.cur_pos.record + 1⟩ },
        ⟨fs, some st.cur_pos⟩,
        .error (.unequalLengths (some st.cur_pos) w fs.length)) := by
  rw [impl_row_step st r fs n heof h]
  simp [hflex, hffc, hne]

/-- A row read with an established expected width and a matching row (not
flexible): the read succeeds. -/
theorem impl_width_ok_step (st : Reader) (r : ByteRecord) (w : Nat)
    (fs : List (List Byte)) (n : Nat)
    (heof : st.eof = false)
    (h : nextRow (st.input.drop st.srcOff) = .row fs n)
    (hflex : st.flexible = false)
    (hffc : st.first_field_count = some w)
    (heq : fs.length = w) :
    st.read_byte_record_impl r =
      ({ st with
          srcOff := st.srcOff + n
          coreLine := st.coreLine + count10 ((st.input.drop st.srcOff).take n)
          cur_pos := ⟨st.cur_pos.byte + n,
            st.coreLine + count10 ((st.input.drop st.srcOff).take n),
            st.cur_pos.record + 1⟩ },
        ⟨fs, some st.cur_pos⟩, .ok true) := by
  rw [impl_row_step st r fs n heof h]
  simp [hflex, hffc, heq]

/-- Under flexible parsing, one driver-loop run always returns `Ok`. -/
theorem impl_ok_of_flexible (st : Reader) (r : ByteRecord)
    (h : st.flexible = true) :
    ∃ b, (st.read_byte_record_impl r).2.2 = .ok b := by
  cases heof : st.eof with
  | true => exact ⟨false, by rw [impl_eof_step st r heof]⟩
  | false =>
    cases hrow : nextRow (st.input.drop st.srcOff) with
    | atEnd n => exact ⟨false, by rw [impl_end_step st r n heof hrow]⟩
    | row fs n => exact ⟨true, by rw [impl_row_step st r fs n heof hrow]; simp [h]⟩

/-- Under flexible parsing, the header-aware row read also always returns
`Ok`. -/
theorem read_ok_of_flexible (st : Reader) (r : ByteRecord)
    (h : st.flexible = true) :
    ∃ b, (st.read_byte_record r).2.2 = .ok b := by
  unfold Reader.read_byte_record
  have main : ∀ st' : Reader, ∀ r' : ByteRecord, st'.flexible = true →
      ∃ b, (st'.readAfterHeaderCheck r').2.2 = .ok b := by
    intro st' r' h'
    unfold Reader.readAfterHeaderCheck
    obtain ⟨b1, hb1⟩ := impl_ok_of_flexible st' r' h'
    rcases h1 : st'.read_byte_record_impl r' with ⟨st1, r1, res1⟩
    rw [h1] at hb1
    simp only at hb1
    subst hb1
    have hflex1 : st1.flexible = true := by
      have := (impl_preserves st' r').2.1
      rw [h1] at this
      simpa [h'] using this
    simp only
    by_cases hcond : (!st1.seeked && st1.headers.isNone) = true
    · rw [if_pos hcond]
      by_cases hhh : ({ st1 with first := true }.set_headers_impl r1).has_headers = true
      · rw [if_pos hhh]
        have hflex2 :
            ({ st1 with first := true }.set_headers_impl r1).flexible = true := by
          simp [Reader.set_headers_impl, hflex1]
        obtain ⟨b2, hb2⟩ :=
          impl_ok_of_flexible ({ st1 with first := true }.set_headers_impl r1)
            r1 hflex2
        rcases h2 : ({ st1 with first := true }.set_headers_impl r1
            ).read_byte_record_impl r1 with ⟨st2, r2, res2⟩
        rw [h2] at hb2
        simp only at hb2
        refine ⟨b2, ?_⟩
        rw [h2]
        simpa using hb2
      · rw [if_neg hhh]
        exact ⟨b1, rfl⟩
    · rw [if_neg hcond]
      exact ⟨b1, rfl⟩
  by_cases hc : (!st.seeked && !st.has_headers && !st.first) = true
  · rw [if_pos hc]
    cases hh : st.headers with
    | some hd => exact ⟨_, rfl⟩
    | none => exact main st r h
  · rw [if_neg hc]
    exact main st r h

/-- C6: For every input and every reader built with `flexible=true`, no
width (unequal-lengths) error is ever produced by any row read, regardless
of how the field counts vary from row to row. -/
theorem flexible_no_width_error (st : Reader) (r : ByteRecord)
    (h : st.flexible = true) :
    (∀ p x y,
      (st.read_byte_record_impl r).2.2 ≠ .error (.unequalLengths p x y))
    ∧ (∀ p x y,
      (st.read_byte_record r).2.2 ≠ .error (.unequalLengths p x y)) := by
  constructor
  · intro p x y
    obtain ⟨b, hb⟩ := impl_ok_of_flexible st r h
    rw [hb]
    simp
  · intro p x y
    obtain ⟨b, hb⟩ := read_ok_of_flexible st r h
    rw [hb]
    simp

/-- Witness for C6 at a reader over `foo\nbar,baz` with `flexible=true`. -/
theorem flexible_no_width_error_witness :
    (Reader.mk' [102, 111, 111, 10, 98, 97, 114, 44, 98, 97, 122]
      false true Trim.none).flexible = true
    ∧ ((∀ p x y,
        ((Reader.mk' [102, 111, 111, 10, 98, 97, 114, 44, 98, 97, 122]
          false true Trim.none).read_byte_record_impl ByteRecord.new).2.2
          ≠ .error (.unequalLengths p x y))
      ∧ (∀ p x y,
        ((Reader.mk' [102, 111, 111, 10, 98, 97, 114, 44, 98, 97, 122]
          false true Trim.none).read_byte_record ByteRecord.new).2.2
          ≠ .error (.unequalLengths p x y))) :=
  ⟨rfl, flexible_no_width_error _ ByteRecord.new rfl⟩

/-- C3: Once the `eof` flag is set, every row read returns "no more rows"
(`Ok(false)`) without error and without touching the byte source — the
whole reader state is left unchanged — until a seek (to a different byte
offset, so the physical seek is not skipped) clears the flag. -/
theorem eof_reads_return_no_more_rows (st : Reader) (r : ByteRecord)
    (h : st.eof = true) :
    st.read_byte_record_impl r = (st, ⟨[], some st.cur_pos⟩, .ok false)
    ∧ (∀ pos : Position, pos.byte ≠ st.cur_pos.byte →
        (st.seek pos).2 = .ok () ∧ ((st.seek pos).1).eof = false) := by
  refine ⟨impl_eof_step st r h, ?_⟩
  intro pos hpos
  unfold Reader.seek Reader.byte_headers
  cases hh : st.headers with
  | some hd =>
    simp only
    rw [if_neg (by simpa using hpos)]
    exact ⟨rfl, rfl⟩
  | none =>
    rw [impl_eof_step st ByteRecord.new h]
    simp only
    rw [if_neg (by simpa using hpos)]
    exact ⟨rfl, rfl⟩

/-- Witness for C3 at a reader whose `eof` flag is set. -/
theorem eof_reads_return_no_more_rows_witness :
    ({ Reader.mk' [] true false Trim.none with eof := true } : Reader).eof
      = true
    ∧ (({ Reader.mk' [] true false Trim.none with
          eof := true } : Reader).read_byte_record_impl ByteRecord.new
        = ({ Reader.mk' [] true false Trim.none with eof := true },
           ⟨[], some ({ Reader.mk' [] true false Trim.none with
              eof := true } : Reader).cur_pos⟩, .ok false)
      ∧ (∀ pos : Position,
          pos.byte ≠ ({ Reader.mk' [] true false Trim.none with
            eof := true } : Reader).cur_pos.byte →
          (({ Reader.mk' [] true false Trim.none with
              eof := true } : Reader).seek pos).2 = .ok ()
          ∧ ((({ Reader.mk' [] true false Trim.none with
              eof := true } : Reader).seek pos).1).eof = false)) :=
  ⟨rfl, eof_reads_return_no_more_rows _ ByteRecord.new rfl⟩

/-- C9: Whenever a row read returns an error, the tracked position has
already been advanced past the offending row: the byte offset covers the
row's consumed bytes, the line counter has advanced over them, the record
index has been incremented by one, and the source offset points at the row
after the offending one. -/
theorem width_error_position_advanced (st : Reader) (r : ByteRecord)
    (fs : List (List Byte)) (n : Nat) (e : Error)
    (h : nextRow (st.input.drop st.srcOff) = .row fs n)
    (herr : (st.read_byte_record_impl r).2.2 = .error e) :
    ((st.read_byte_record_impl r).1.cur_pos.byte = st.cur_pos.byte + n)
    ∧ ((st.read_byte_record_impl r).1.cur_pos.record
        = st.cur_pos.record + 1)
    ∧ ((st.read_byte_record_impl r).1.cur_pos.line
        = st.coreLine + count10 ((st.input.drop st.srcOff).take n))
    ∧ ((st.read_byte_record_impl r).1.srcOff = st.srcOff + n) := by
  cases heof : st.eof with
  | true => rw [impl_eof_step st r heof] at herr; simp at herr
  | false =>
    rw [impl_row_step st r fs n heof h] at herr ⊢
    cases hf : st.flexible with
    | true => simp [hf] at herr
    | false =>
      cases hffc : st.first_field_count with
      | none => simp [hf, hffc] at herr
      | some expected =>
        by_cases hlen : fs.length = expected
        · simp [hf, hffc, hlen] at herr
        · simp [hf, hffc, hlen]

/-- C1: With `flexible=false`, the field count of the first parsed row
fixes the expected width for all subsequent rows: a later row of a
different width makes the row read return a width error carrying exactly
the expected width from row 0, the actual width, and the position stamped
at that row's start — and the reader is not poisoned: the immediately
following read of a well-formed row succeeds. -/
theorem first_row_fixes_width
    (st : Reader) (r0 r1 r2 : ByteRecord)
    (hflex : st.flexible = false)
    (hffc : st.first_field_count = none)
    (heof : st.eof = false)
    (fs0 fs1 fs2 : List (List Byte)) (n0 n1 n2 : Nat)
    (h0 : nextRow (st.input.drop st.srcOff) = .row fs0 n0)
    (h1 : nextRow (st.input.drop (st.srcOff + n0)) = .row fs1 n1)
    (h2 : nextRow (st.input.drop (st.srcOff + n0 + n1)) = .row fs2 n2)
    (hne : fs1.length ≠ fs0.length)
    (heq : fs2.length = fs0.length) :
    ((st.read_byte_record_impl r0).2.2 = .ok true)
    ∧ ((st.read_byte_record_impl r0).1.first_field_count = some fs0.length)
    ∧ (((st.read_byte_record_impl r0).1.read_byte_record_impl r1).2.2
        = .error (.unequalLengths
            (some (st.read_byte_record_impl r0).1.cur_pos)
            fs0.length fs1.length))
    ∧ ((Reader.read_byte_record_impl
          ((st.read_byte_record_impl r0).1.read_byte_record_impl r1).1
          r2).2.2 = .ok true) := by
  have s1 := impl_first_row_step st r0 fs0 n0 heof h0 hflex hffc
  rcases hA : st.read_byte_record_impl r0 with ⟨stA, rA, resA⟩
  rw [hA] at s1
  simp only [Prod.mk.injEq] at s1
  obtain ⟨e1, e2, e3⟩ := s1
  have hAflex : stA.flexible = false := by rw [e1]; exact hflex
  have hAffc : stA.first_field_count = some fs0.length := by rw [e1]
  have hAeof : stA.eof = false := by rw [e1]; exact heof
  have hArow : nextRow (stA.input.drop stA.srcOff) = .row fs1 n1 := by
    rw [e1]; exact h1
  have s2 := impl_width_error_step stA r1 fs0.length fs1 n1 hAeof hArow
    hAflex hAffc hne
  rcases hB : stA.read_byte_record_impl r1 with ⟨stB, rB, resB⟩
  rw [hB] at s2
  simp only [Prod.mk.injEq] at s2
  obtain ⟨f1, f2, f3⟩ := s2
  have hBflex : stB.flexible = false := by rw [f1]; exact hAflex
  have hBffc : stB.first_field_count = some fs0.length := by
    rw [f1]; exact hAffc
  have hBeof : stB.eof = false := by rw [f1]; exact hAeof
  have hBrow : nextRow (stB.input.drop stB.srcOff) = .row fs2 n2 := by
    rw [f1]
    have hAsrc : stA.srcOff = st.srcOff + n0 := by rw [e1]
    have hAin : stA.input = st.input := by rw [e1]
    simp only [hAsrc, hAin]
    exact h2
  have s3 := impl_width_ok_step stB r2 fs0.length fs2 n2 hBeof hBrow
    hBflex hBffc heq
  refine ⟨e3, hAffc, f3, ?_⟩
  show (stB.read_byte_record_impl r2).2.2 = .ok true
  rw [s3]

/-- The bytes of `foo\nbar,baz\nquux` (the width-error scenario of the
tests, with a well-formed row after the mismatching one). -/
def exB : List Byte :=
  [102, 111, 111, 10, 98, 97, 114, 44, 98, 97, 122, 10, 113, 117, 117, 120]

/-- A fresh non-flexible reader without headers over `exB`. -/
def exBReader : Reader := Reader.mk' exB false false Trim.none

/-- Witness for C1 on `foo\nbar,baz\nquux`: row 0 (`foo`) fixes width 1,
row 1 (`bar,baz`) errors with expected 1 / actual 2 / its own start
position, row 2 (`quux`) still reads successfully. -/
theorem first_row_fixes_width_witness :
    (exBReader.flexible = false)
    ∧ (exBReader.first_field_count = none)
    ∧ (exBReader.eof = false)
    ∧ (nextRow (exBReader.input.drop exBReader.srcOff)
        = .row [[102, 111, 111]] 4)
    ∧ (nextRow (exBReader.input.drop (exBReader.srcOff + 4))
        = .row [[98, 97, 114], [98, 97, 122]] 8)
    ∧ (nextRow (exBReader.input.drop (exBReader.srcOff + 4 + 8))
        = .row [[113, 117, 117, 120]] 4)
    ∧ ([[98, 97, 114], [98, 97, 122]].length ≠ [[102, 111, 111]].length)
    ∧ ([[113, 117, 117, 120]].length = [[102, 111, 111]].length)
    ∧ (((exBReader.read_byte_record_impl ByteRecord.new).2.2 = .ok true)
      ∧ ((exBReader.read_byte_record_impl ByteRecord.new).1.first_field_count
          = some [[102, 111, 111]].length)
      ∧ (((exBReader.read_byte_record_impl ByteRecord.new
            ).1.read_byte_record_impl ByteRecord.new).2.2
          = .error (.unequalLengths
              (some (exBReader.read_byte_record_impl ByteRecord.new).1.cur_pos)
              [[102, 111, 111]].length [[98, 97, 114], [98, 97, 122]].length))
      ∧ ((Reader.read_byte_record_impl
            ((exBReader.read_byte_record_impl ByteRecord.new
              ).1.read_byte_record_impl ByteRecord.new).1
            ByteRecord.new).2.2 = .ok true)) :=
  ⟨rfl, rfl, rfl, rfl, rfl, rfl, by decide, rfl,
   first_row_fixes_width exBReader ByteRecord.new ByteRecord.new
     ByteRecord.new rfl rfl rfl
     [[102, 111, 111]] [[98, 97, 114], [98, 97, 122]] [[113, 117, 117, 120]]
     4 8 4 rfl rfl rfl (by decide) rfl⟩

/-- The reader over `exB` after its first row (`foo`) has been read. -/
def exB1 : Reader := (exBReader.read_byte_record_impl ByteRecord.new).1

/-- Witness for C9 at the mismatching row `bar,baz` of
`foo\nbar,baz\nquux`: the returned error leaves the position advanced
past the offending row. -/
theorem width_error_position_advanced_witness :
    (nextRow (exB1.input.drop exB1.srcOff)
      = .row [[98, 97, 114], [98, 97, 122]] 8)
    ∧ ((exB1.read_byte_record_impl ByteRecord.new).2.2
      = .error (.unequalLengths (some ⟨4, 2, 1⟩) 1 2))
    ∧ (((exB1.read_byte_record_impl ByteRecord.new).1.cur_pos.byte
          = exB1.cur_pos.byte + 8)
      ∧ ((exB1.read_byte_record_impl ByteRecord.new).1.cur_pos.record
          = exB1.cur_pos.record + 1)
      ∧ ((exB1.read_byte_record_impl ByteRecord.new).1.cur_pos.line
          = exB1.coreLine + count10 ((exB1.input.drop exB1.srcOff).take 8))
      ∧ ((exB1.read_byte_record_impl ByteRecord.new).1.srcOff
          = exB1.srcOff + 8)) :=
  ⟨rfl, rfl,
   width_error_position_advanced exB1 ByteRecord.new
     [[98, 97, 114], [98, 97, 122]] 8
     (.unequalLengths (some ⟨4, 2, 1⟩) 1 2) rfl rfl⟩

/-- `readAfterHeaderCheck` never changes the `seeked` flag. -/
theorem rahc_seeked (st : Reader) (r : ByteRecord) :
    (st.readAfterHeaderCheck r).1.seeked = st.seeked := by
  unfold Reader.readAfterHeaderCheck
  have hp := (impl_preserves st r).2.2.2.2.2.2
  rcases h1 : st.read_byte_record_impl r with ⟨st1, r1, res1⟩
  rw [h1] at hp
  simp only at hp
  cases res1 with
  | error e => simpa using hp
  | ok ok =>
    simp only
    by_cases hcond : (!st1.seeked && st1.headers.isNone) = true
    · rw [if_pos hcond]
      by_cases hhh :
          ({ st1 with first := true }.set_headers_impl r1).has_headers = true
      · rw [if_pos hhh]
        set X := ({ st1 with first := true } : Reader).set_headers_impl r1
          with hX
        have hgoal : (X.read_byte_record_impl r1).1.seeked = X.seeked :=
          (impl_preserves X r1).2.2.2.2.2.2
        rw [hgoal, hX]
        simpa [Reader.set_headers_impl] using hp
      · rw [if_neg hhh]
        simpa [Reader.set_headers_impl] using hp
    · rw [if_neg hcond]
      simpa using hp

/-- The header-aware row read never changes the `seeked` flag. -/
theorem read_seeked (st : Reader) (r : ByteRecord) :
    (st.read_byte_record r).1.seeked = st.seeked := by
  unfold Reader.read_byte_record
  by_cases hc : (!st.seeked && !st.has_headers && !st.first) = true
  · rw [if_pos hc]
    cases hh : st.headers with
    | some hd => simp
    | none => exact rahc_seeked st r
  · rw [if_neg hc]
    exact rahc_seeked st r

/-- A seek leaves the `seeked` flag set. -/
theorem seek_seeked (st : Reader) (p : Position) (hs : st.seeked = true) :
    ((st.seek p).1).seeked = true := by
  unfold Reader.seek Reader.byte_headers
  cases hh : st.headers with
  | some hd =>
    simp only
    split <;> rfl
  | none =>
    have hp := (impl_preserves st ByteRecord.new).2.2.2.2.2.2
    rcases h1 : st.read_byte_record_impl ByteRecord.new with ⟨st1, r1, res1⟩
    rw [h1] at hp
    simp only at hp
    cases res1 with
    | error e =>
      simp only
      rw [hp]
      exact hs
    | ok b =>
      simp only
      split <;> rfl

/-- C4: A seek with headers already resolved sets `seeked=true`
permanently (no row read nor later seek clears it), and — when the target
byte offset differs from the tracked one — performs the physical seek:
source offset moved to the target byte, engine reset with its line counter
set to the caller-supplied line, tracked position replaced verbatim, `eof`
cleared.  When the target byte offset equals the tracked one the physical
seek is skipped entirely and only `seeked` is set. -/
theorem seek_effects (st : Reader) (pos : Position) (h : Headers)
    (hh : st.headers = some h) :
    (pos.byte ≠ st.cur_pos.byte →
      st.seek pos = ({ st with
        seeked := true
        srcOff := pos.byte
        coreLine := pos.line
        cur_pos := pos
        eof := false }, .ok ()))
    ∧ (pos.byte = st.cur_pos.byte →
      st.seek pos = ({ st with seeked := true }, .ok ()))
    ∧ (∀ st2 : Reader, ∀ r : ByteRecord, st2.seeked = true →
        ((st2.read_byte_record_impl r).1.seeked = true
        ∧ (st2.read_byte_record r).1.seeked = true
        ∧ ∀ p2 : Position, ((st2.seek p2).1).seeked = true)) := by
  refine ⟨?_, ?_, ?_⟩
  · intro hne
    unfold Reader.seek Reader.byte_headers
    rw [hh]
    simp only
    rw [if_neg (by simpa using hne)]
    rw [hh]
  · intro heq
    unfold Reader.seek Reader.byte_headers
    rw [hh]
    simp only
    rw [if_pos (by simpa using heq)]
    rw [hh]
  · intro st2 r hs2
    refine ⟨?_, ?_, ?_⟩
    · rw [(impl_preserves st2 r).2.2.2.2.2.2]
      exact hs2
    · rw [read_seeked st2 r]
      exact hs2
    · intro p2
      exact seek_seeked st2 p2 hs2

/-- A reader over empty input whose headers have been set manually (any
reader state with resolved headers serves for the seek witness). -/
def exSeekReader : Reader :=
  { Reader.mk' [] true false Trim.none with
      headers := some ⟨ByteRecord.new, .ok StringRecord.new⟩ }

/-- Witness for C4 at a reader with resolved headers and the target
position `{byte 3, line 7, record 5}`. -/
theorem seek_effects_witness :
    (exSeekReader.headers = some ⟨ByteRecord.new, .ok StringRecord.new⟩)
    ∧ (((⟨3, 7, 5⟩ : Position).byte ≠ exSeekReader.cur_pos.byte →
        exSeekReader.seek ⟨3, 7, 5⟩ = ({ exSeekReader with
          seeked := true
          srcOff := (⟨3, 7, 5⟩ : Position).byte
          coreLine := (⟨3, 7, 5⟩ : Position).line
          cur_pos := ⟨3, 7, 5⟩
          eof := false }, .ok ()))
      ∧ ((⟨3, 7, 5⟩ : Position).byte = exSeekReader.cur_pos.byte →
        exSeekReader.seek ⟨3, 7, 5⟩
          = ({ exSeekReader with seeked := true }, .ok ()))
      ∧ (∀ st2 : Reader, ∀ r : ByteRecord, st2.seeked = true →
          ((st2.read_byte_record_impl r).1.seeked = true
          ∧ (st2.read_byte_record r).1.seeked = true
          ∧ ∀ p2 : Position, ((st2.seek p2).1).seeked = true))) :=
  ⟨rfl, seek_effects exSeekReader ⟨3, 7, 5⟩
    ⟨ByteRecord.new, .ok StringRecord.new⟩ rfl⟩

/-- Re-setting `first := true` on a reader whose `first` flag is already
set changes nothing. -/
theorem first_update_id (st : Reader) (h : st.first = true) :
    ({ st with first := true } : Reader) = st := by
  cases st
  simp_all

/-- Trimming preserves emptiness of a record. -/
theorem trim_is_empty (b : ByteRecord) (h : b.is_empty = true) :
    b.trim.is_empty = true := by
  rcases b with ⟨fields, pos⟩
  cases fields with
  | nil => rfl
  | cons f rest => simp [ByteRecord.is_empty] at h

/-- C5: With `has_headers=false`, never seeked, headers cached but the
first row not yet yielded, the very next row read yields the cached header
bytes verbatim exactly once (given the default trim policy and a non-empty
cache), and subsequent reads — any read with `first` set — go straight
through `readAfterHeaderCheck`, which with headers cached is exactly one
plain row read from the source. -/
theorem cached_header_yielded_once (st : Reader) (r : ByteRecord)
    (h : Headers)
    (hs : st.seeked = false) (hh : st.has_headers = false)
    (hf : st.first = false) (hc : st.headers = some h)
    (ht : st.trim = Trim.none)
    (hne : h.byte_record.is_empty = false) :
    (st.read_byte_record r
      = ({ st with first := true }, h.byte_record, .ok true))
    ∧ (∀ st2 : Reader, ∀ r2 : ByteRecord, st2.first = true →
        st2.read_byte_record r2 = st2.readAfterHeaderCheck r2)
    ∧ (∀ st2 : Reader, ∀ r2 : ByteRecord, ∀ h2 : Headers,
        st2.first = true → st2.headers = some h2 → st2.trim = Trim.none →
        st2.readAfterHeaderCheck r2 = st2.read_byte_record_impl r2) := by
  refine ⟨?_, ?_, ?_⟩
  · unfold Reader.read_byte_record
    rw [if_pos (by simp [hs, hh, hf])]
    rw [hc]
    have hstf : Trim.none.should_trim_fields = false := rfl
    simp [ht, hstf, hne]
  · intro st2 r2 hf2
    unfold Reader.read_byte_record
    rw [if_neg (by simp [hf2])]
  · intro st2 r2 h2 hf2 hc2 ht2
    unfold Reader.readAfterHeaderCheck
    have hpres := impl_preserves st2 r2
    rcases q : st2.read_byte_record_impl r2 with ⟨st3, r3, res3⟩
    rw [q] at hpres
    simp only at hpres
    obtain ⟨-, -, htrim3, hhd3, -, hfst3, -⟩ := hpres
    cases res3 with
    | error e => rfl
    | ok ok =>
      simp only
      rw [if_neg (by simp [hhd3, hc2])]
      rw [if_neg (by
        have hstf : Trim.none.should_trim_fields = false := rfl
        simp [htrim3, ht2, hstf])]
      rw [first_update_id st3 (by rw [hfst3]; exact hf2)]

/-- The bytes of `foo,bar,baz\na,b,c\nd,e,f` (Scenario D). -/
def exD : List Byte :=
  [102, 111, 111, 44, 98, 97, 114, 44, 98, 97, 122, 10,
   97, 44, 98, 44, 99, 10, 100, 44, 101, 44, 102]

/-- A fresh `has_headers=false` reader over `exD` whose header row has
been resolved by an explicit header query. -/
def exC5Reader : Reader :=
  ((Reader.mk' exD false false Trim.none).headersQ).1

/-- The header cache of `exC5Reader`: the first physical row. -/
def exC5Headers : Headers :=
  ⟨⟨[[102, 111, 111], [98, 97, 114], [98, 97, 122]], some ⟨0, 1, 0⟩⟩,
   .ok ⟨[[102, 111, 111], [98, 97, 114], [98, 97, 122]], some ⟨0, 1, 0⟩⟩⟩

/-- Witness for C5: after querying headers on Scenario D data with
`has_headers=false`, the next row read yields the header bytes `foo`,
`bar`, `baz` verbatim. -/
theorem cached_header_yielded_once_witness :
    (exC5Reader.seeked = false)
    ∧ (exC5Reader.has_headers = false)
    ∧ (exC5Reader.first = false)
    ∧ (exC5Reader.headers = some exC5Headers)
    ∧ (exC5Reader.trim = Trim.none)
    ∧ (exC5Headers.byte_record.is_empty = false)
    ∧ ((exC5Reader.read_byte_record ByteRecord.new
        = ({ exC5Reader with first := true },
           exC5Headers.byte_record, .ok true))
      ∧ (∀ st2 : Reader, ∀ r2 : ByteRecord, st2.first = true →
          st2.read_byte_record r2 = st2.readAfterHeaderCheck r2)
      ∧ (∀ st2 : Reader, ∀ r2 : ByteRecord, ∀ h2 : Headers,
          st2.first = true → st2.headers = some h2 → st2.trim = Trim.none →
          st2.readAfterHeaderCheck r2 = st2.read_byte_record_impl r2)) :=
  ⟨rfl, rfl, rfl, rfl, rfl, rfl,
   cached_header_yielded_once exC5Reader ByteRecord.new exC5Headers
     rfl rfl rfl rfl rfl rfl⟩

/-- C10: With `has_headers=false`, never seeked, headers cached but the
first row not yet yielded, the special case yields the cached header with
`Ok(!record.is_empty())`: a row is reported only when the (possibly
trimmed) cached header record is non-empty, and a zero-field cache (as
after querying headers on empty input) makes the read report "no more
rows" (`Ok(false)`) instead of yielding the empty record. -/
theorem empty_cached_header_not_yielded (st : Reader) (r : ByteRecord)
    (h : Headers)
    (hs : st.seeked = false) (hh : st.has_headers = false)
    (hf : st.first = false) (hc : st.headers = some h) :
    (st.read_byte_record r
      = ({ st with first := true },
         (if st.trim.should_trim_fields then h.byte_record.trim
           else h.byte_record),
         .ok (!(if st.trim.should_trim_fields then h.byte_record.trim
           else h.byte_record).is_empty)))
    ∧ (h.byte_record.is_empty = true →
        (st.read_byte_record r).2.2 = .ok false) := by
  have main : st.read_byte_record r
      = ({ st with first := true },
         (if st.trim.should_trim_fields then h.byte_record.trim
           else h.byte_record),
         .ok (!(if st.trim.should_trim_fields then h.byte_record.trim
           else h.byte_record).is_empty)) := by
    unfold Reader.read_byte_record
    rw [if_pos (by simp [hs, hh, hf])]
    rw [hc]
  refine ⟨main, ?_⟩
  intro hemp
  rw [main]
  by_cases htr : st.trim.should_trim_fields = true
  · simp [htr, trim_is_empty h.byte_record hemp]
  · simp [htr, hemp]

/-- A fresh `has_headers=false` reader over empty input whose (empty)
header row has been resolved by an explicit header query. -/
def exC10Reader : Reader :=
  ((Reader.mk' [] false false Trim.none).headersQ).1

/-- Witness for C10: after querying headers on empty input with
`has_headers=false`, the cached header is empty and the next read reports
"no more rows" rather than yielding it. -/
theorem empty_cached_header_not_yielded_witness :
    (exC10Reader.seeked = false)
    ∧ (exC10Reader.has_headers = false)
    ∧ (exC10Reader.first = false)
    ∧ (exC10Reader.headers
        = some ⟨⟨[], some ⟨0, 1, 0⟩⟩, .ok ⟨[], some ⟨0, 1, 0⟩⟩⟩)
    ∧ ((exC10Reader.read_byte_record ByteRecord.new
        = ({ exC10Reader with first := true },
           (if exC10Reader.trim.should_trim_fields then
              (⟨⟨[], some ⟨0, 1, 0⟩⟩, .ok ⟨[], some ⟨0, 1, 0⟩⟩⟩ :
                Headers).byte_record.trim
            else (⟨⟨[], some ⟨0, 1, 0⟩⟩, .ok ⟨[], some ⟨0, 1, 0⟩⟩⟩ :
                Headers).byte_record),
           .ok (!(if exC10Reader.trim.should_trim_fields then
              (⟨⟨[], some ⟨0, 1, 0⟩⟩, .ok ⟨[], some ⟨0, 1, 0⟩⟩⟩ :
                Headers).byte_record.trim
            else (⟨⟨[], some ⟨0, 1, 0⟩⟩, .ok ⟨[], some ⟨0, 1, 0⟩⟩⟩ :
                Headers).byte_record).is_empty)))
      ∧ ((⟨⟨[], some ⟨0, 1, 0⟩⟩, .ok ⟨[], some ⟨0, 1, 0⟩⟩⟩ :
            Headers).byte_record.is_empty = true →
          (exC10Reader.read_byte_record ByteRecord.new).2.2 = .ok false)) :=
  ⟨rfl, rfl, rfl, rfl,
   empty_cached_header_not_yielded exC10Reader ByteRecord.new
     ⟨⟨[], some ⟨0, 1, 0⟩⟩, .ok ⟨[], some ⟨0, 1, 0⟩⟩⟩ rfl rfl rfl rfl⟩

/-- `mkHeaders` depends only on the reader's trim policy. -/
theorem mkHeaders_congr (s1 s2 : Reader) (b : ByteRecord)
    (h : s1.trim = s2.trim) : s1.mkHeaders b = s2.mkHeaders b := by
  unfold Reader.mkHeaders
  rw [h]

/-- The reader state after `k` header-aware row reads (the state evolution
does not depend on the contents of the reusable record). -/
def Reader.afterReads (st : Reader) : Nat → Reader
  | 0 => st
  | k + 1 => ((st.read_byte_record ByteRecord.new).1).afterReads k

/-- A fresh default reader (`has_headers=true`) over Scenario D's data. -/
def exDReader : Reader := Reader.mk' exD true false Trim.none

/-- C2: With `has_headers=true`, the first parsed row is captured as the
header cache and is never returned to row consumers: the first header-aware
read parses row 0, caches it, and returns the result of a second driver
read instead.  On Scenario D (`foo,bar,baz\na,b,c\nd,e,f`) both the byte
and the string stream adapters yield exactly rows `a,b,c` and `d,e,f`, and
a header query — before iteration, after a header query followed by
iteration, or after iteration — yields `foo,bar,baz`. -/
theorem has_headers_skips_first_row (st : Reader) (r : ByteRecord)
    (hh : st.has_headers = true) (hs : st.seeked = false)
    (hn : st.headers = none)
    (hok : (st.read_byte_record_impl r).2.2 = .ok true) :
    (let p := st.read_byte_record_impl r
     let stH := ({ p.1 with first := true }).set_headers_impl p.2.1
     let q := stH.read_byte_record_impl p.2.1
     (st.read_byte_record r
       = (q.1, if q.1.trim.should_trim_fields then q.2.1.trim else q.2.1,
          q.2.2))
     ∧ ((st.read_byte_record r).1.headers = some (st.mkHeaders p.2.1)))
    ∧ ((byteRecordsFrom exDReader ByteRecord.new 4).map
          (fun x => x.map ByteRecord.fields)
        = [.ok [[97], [98], [99]], .ok [[100], [101], [102]]])
    ∧ ((stringRecordsFrom exDReader StringRecord.new 4).map
          (fun x => x.map StringRecord.fields)
        = [.ok [[97], [98], [99]], .ok [[100], [101], [102]]])
    ∧ ((exDReader.byte_headers).2.map ByteRecord.fields
        = .ok [[102, 111, 111], [98, 97, 114], [98, 97, 122]])
    ∧ ((byteRecordsFrom (exDReader.byte_headers).1 ByteRecord.new 4).map
          (fun x => x.map ByteRecord.fields)
        = [.ok [[97], [98], [99]], .ok [[100], [101], [102]]])
    ∧ (((exDReader.afterReads 3).byte_headers).2.map ByteRecord.fields
        = .ok [[102, 111, 111], [98, 97, 114], [98, 97, 122]])
    ∧ (((exDReader.afterReads 3).headersQ).2.map StringRecord.fields
        = .ok [[102, 111, 111], [98, 97, 114], [98, 97, 122]]) := by
  refine ⟨?_, by decide, by decide, by decide, by decide, by decide,
    by decide⟩
  have hpres := impl_preserves st r
  rcases hp : st.read_byte_record_impl r with ⟨st1, r1, res1⟩
  rw [hp] at hpres hok
  simp only at hpres hok
  obtain ⟨hhd1, -, htr1, hhead1, -, -, hsk1⟩ := hpres
  subst hok
  have hread : st.read_byte_record r
      = (fun q => (q.1,
          if q.1.trim.should_trim_fields then q.2.1.trim else q.2.1,
          q.2.2))
        ((({ st1 with first := true } : Reader).set_headers_impl r1
          ).read_byte_record_impl r1) := by
    unfold Reader.read_byte_record
    rw [if_neg (by simp [hh])]
    unfold Reader.readAfterHeaderCheck
    rw [hp]
    simp only
    rw [if_pos (by simp [hsk1, hs, hhead1, hn])]
    rw [if_pos (by simp [Reader.set_headers_impl, hhd1, hh])]
  refine ⟨hread, ?_⟩
  rw [hread]
  set X := ({ st1 with first := true } : Reader).set_headers_impl r1
    with hX
  have h1 : ((fun q => (q.1,
      if q.1.trim.should_trim_fields then q.2.1.trim else q.2.1,
      q.2.2)) (X.read_byte_record_impl r1)).1
      = (X.read_byte_record_impl r1).1 := rfl
  rw [h1, (impl_preserves X r1).2.2.2.1, hX]
  show some (({ st1 with first := true } : Reader).mkHeaders r1)
    = some (st.mkHeaders r1)
  rw [mkHeaders_congr ({ st1 with first := true } : Reader) st r1
    (by simpa using htr1)]

/-- Witness for C2 at the fresh default reader over Scenario D's data:
its first driver read succeeds, so the header-skipping mechanism applies. -/
theorem has_headers_skips_first_row_witness :
    (exDReader.has_headers = true)
    ∧ (exDReader.seeked = false)
    ∧ (exDReader.headers = none)
    ∧ ((exDReader.read_byte_record_impl ByteRecord.new).2.2 = .ok true)
    ∧ ((let p := exDReader.read_byte_record_impl ByteRecord.new
        let stH := ({ p.1 with first := true }).set_headers_impl p.2.1
        let q := stH.read_byte_record_impl p.2.1
        (exDReader.read_byte_record ByteRecord.new
          = (q.1,
             if q.1.trim.should_trim_fields then q.2.1.trim else q.2.1,
             q.2.2))
        ∧ ((exDReader.read_byte_record ByteRecord.new).1.headers
            = some (exDReader.mkHeaders p.2.1)))
      ∧ ((byteRecordsFrom exDReader ByteRecord.new 4).map
            (fun x => x.map ByteRecord.fields)
          = [.ok [[97], [98], [99]], .ok [[100], [101], [102]]])
      ∧ ((stringRecordsFrom exDReader StringRecord.new 4).map
            (fun x => x.map StringRecord.fields)
          = [.ok [[97], [98], [99]], .ok [[100], [101], [102]]])
      ∧ ((exDReader.byte_headers).2.map ByteRecord.fields
          = .ok [[102, 111, 111], [98, 97, 114], [98, 97, 122]])
      ∧ ((byteRecordsFrom (exDReader.byte_headers).1 ByteRecord.new 4).map
            (fun x => x.map ByteRecord.fields)
          = [.ok [[97], [98], [99]], .ok [[100], [101], [102]]])
      ∧ (((exDReader.afterReads 3).byte_headers).2.map ByteRecord.fields
          = .ok [[102, 111, 111], [98, 97, 114], [98, 97, 122]])
      ∧ (((exDReader.afterReads 3).headersQ).2.map StringRecord.fields
          = .ok [[102, 111, 111], [98, 97, 114], [98, 97, 122]])) :=
  ⟨rfl, rfl, rfl, rfl,
   has_headers_skips_first_row exDReader ByteRecord.new rfl rfl rfl rfl⟩

/-- A fresh default reader (`has_headers=true`) over empty input. -/
def exEmptyReader : Reader := Reader.mk' [] true false Trim.none

/-- C8: On empty input with `has_headers=true` (the default), a header
query — `byte_headers` or `headers` — succeeds and yields a record with
zero fields, and row iteration (byte or string stream adapter, any number
of polls) yields zero items: no rows and no errors. -/
theorem empty_input_headers_and_rows :
    ((exEmptyReader.byte_headers).2.map ByteRecord.len = .ok 0)
    ∧ ((exEmptyReader.headersQ).2.map (fun r => r.fields.length) = .ok 0)
    ∧ (∀ fuel : Nat,
        byteRecordsFrom exEmptyReader ByteRecord.new fuel = [])
    ∧ (∀ fuel : Nat,
        stringRecordsFrom exEmptyReader StringRecord.new fuel = []) := by
  refine ⟨rfl, rfl, ?_, ?_⟩
  · intro fuel
    cases fuel with
    | zero => rfl
    | succ n => rfl
  · intro fuel
    cases fuel with
    | zero => rfl
    | succ n => rfl

/-- Inversion of a successful row read: the `eof` flag was clear, the
returned record carries the row the engine yielded stamped with the
position at the read's start, and the width check passed (flexible, or no
expected width yet, or a matching width). -/
theorem impl_ok_inversion (st : Reader) (r : ByteRecord)
    (st1 : Reader) (r1 : ByteRecord)
    (hread : st.read_byte_record_impl r = (st1, r1, .ok true)) :
    st.eof = false
    ∧ r1.pos = some st.cur_pos
    ∧ (∃ n, nextRow (st.input.drop st.srcOff) = .row r1.fields n)
    ∧ (st.flexible = true ∨ st.first_field_count = none
       ∨ st.first_field_count = some r1.fields.length) := by
  cases heof : st.eof with
  | true =>
    rw [impl_eof_step st r heof] at hread
    simp at hread
  | false =>
    cases hrow : nextRow (st.input.drop st.srcOff) with
    | atEnd n =>
      rw [impl_end_step st r n heof hrow] at hread
      simp at hread
    | row fs n =>
      rw [impl_row_step st r fs n heof hrow] at hread
      by_cases hf : st.flexible = true
      · simp only [hf, if_true] at hread
        simp only [Prod.mk.injEq] at hread
        obtain ⟨-, hr1, -⟩ := hread
        subst hr1
        exact ⟨rfl, rfl, ⟨n, rfl⟩, Or.inl hf⟩
      · simp only [hf, if_false, Bool.false_eq_true] at hread
        cases hffc : st.first_field_count with
        | none =>
          rw [hffc] at hread
          simp only [Prod.mk.injEq] at hread
          obtain ⟨-, hr1, -⟩ := hread
          subst hr1
          exact ⟨rfl, rfl, ⟨n, rfl⟩, Or.inr (Or.inl rfl)⟩
        | some expected =>
          rw [hffc] at hread
          by_cases hlen : fs.length = expected
          · simp only [hlen, if_true, Prod.mk.injEq] at hread
            obtain ⟨-, hr1, -⟩ := hread
            subst hr1
            refine ⟨rfl, rfl, ⟨n, rfl⟩, Or.inr (Or.inr ?_)⟩
            simp [hlen]
          · simp [hlen] at hread

/-- A row read whose width check is bound to pass (flexible, no expected
width yet, or a matching width) returns exactly the engine's row with
success. -/
theorem impl_row_ok (st : Reader) (r : ByteRecord)
    (fs : List (List Byte)) (n : Nat)
    (heof : st.eof = false)
    (hrow : nextRow (st.input.drop st.srcOff) = .row fs n)
    (hcond : st.flexible = true ∨ st.first_field_count = none
       ∨ st.first_field_count = some fs.length) :
    (st.read_byte_record_impl r).2.1.fields = fs
    ∧ (st.read_byte_record_impl r).2.2 = .ok true := by
  rw [impl_row_step st r fs n heof hrow]
  rcases hcond with hf | hc | hc
  · simp [hf]
  · by_cases hflex : st.flexible = true <;> simp [hflex, hc]
  · by_cases hflex : st.flexible = true <;> simp [hflex, hc]

/-- C7: Seeking to the position stamped on a successfully read row and
reading once reproduces that row's field contents exactly.  `st` is the
state from which the row was read (source offset at the tracked byte
offset, the reader's invariant); `st2` is any later state of the same
reader — same input, same expected width, same flexibility, headers
resolved, the invariant holding, and `eof` clear in case the seek target
is already the tracked offset (otherwise the physical seek clears it). -/
theorem seek_read_round_trip
    (st : Reader) (r : ByteRecord) (st1 : Reader) (r1 : ByteRecord)
    (hinv : st.srcOff = st.cur_pos.byte)
    (hread : st.read_byte_record_impl r = (st1, r1, .ok true))
    (st2 : Reader) (h2 : Headers) (p : Position)
    (hin : st2.input = st.input)
    (hffc : st2.first_field_count = st.first_field_count)
    (hflex : st2.flexible = st.flexible)
    (hhdr : st2.headers = some h2)
    (hinv2 : st2.srcOff = st2.cur_pos.byte)
    (hp : r1.pos = some p)
    (heof2 : p.byte = st2.cur_pos.byte → st2.eof = false) :
    ((st2.seek p).2 = .ok ())
    ∧ (∀ rr : ByteRecord,
        (((st2.seek p).1).read_byte_record_impl rr).2.1.fields = r1.fields
        ∧ (((st2.seek p).1).read_byte_record_impl rr).2.2 = .ok true) := by
  obtain ⟨heof, hpos, ⟨n, hrow⟩, hcond⟩ := impl_ok_inversion st r st1 r1 hread
  have hpeq : p = st.cur_pos := by
    rw [hp] at hpos
    exact Option.some.inj hpos
  have hcond2 : st2.flexible = true ∨ st2.first_field_count = none
      ∨ st2.first_field_count = some r1.fields.length := by
    rw [hflex, hffc]
    exact hcond
  unfold Reader.seek Reader.byte_headers
  rw [hhdr]
  simp only
  by_cases hb : (p.byte == st2.cur_pos.byte) = true
  · rw [if_pos hb]
    have hbeq : p.byte = st2.cur_pos.byte := by simpa using hb
    refine ⟨rfl, ?_⟩
    intro rr
    refine impl_row_ok ({ st2 with seeked := true } : Reader) rr
      r1.fields n ?_ ?_ ?_
    · show st2.eof = false
      exact heof2 hbeq
    · show nextRow (st2.input.drop st2.srcOff) = .row r1.fields n
      rw [hin, hinv2, ← hbeq, hpeq, ← hinv]
      exact hrow
    · show st2.flexible = true ∨ st2.first_field_count = none
        ∨ st2.first_field_count = some r1.fields.length
      exact hcond2
  · rw [if_neg hb]
    refine ⟨rfl, ?_⟩
    intro rr
    refine impl_row_ok ({ st2 with
        seeked := true
        srcOff := p.byte
        coreLine := p.line
        cur_pos := p
        eof := false } : Reader) rr r1.fields n ?_ ?_ ?_
    · rfl
    · show nextRow (st2.input.drop p.byte) = .row r1.fields n
      rw [hin, hpeq, ← hinv]
      exact hrow
    · show st2.flexible = true ∨ st2.first_field_count = none
        ∨ st2.first_field_count = some r1.fields.length
      exact hcond2

/-- The bytes of `a,b,c\nx,y,z`. -/
def exAB : List Byte := [97, 44, 98, 44, 99, 10, 120, 44, 121, 44, 122]

/-- A fresh `has_headers=false` reader over `exAB`. -/
def exABReader : Reader := Reader.mk' exAB false false Trim.none

/-- The reader over `exAB` after its first row has been read. -/
def exC7st : Reader := (exABReader.read_byte_record_impl ByteRecord.new).1

/-- The same logical reader after a full header-aware iteration (both
rows yielded, `eof` reached, headers cached). -/
def exC7st2 : Reader := exABReader.afterReads 3

/-- Witness for C7: reading row 1 (`x,y,z`, stamped position
`{byte 6, line 2, record 1}`) from `exC7st`, then seeking the exhausted
reader `exC7st2` to that position and reading once reproduces the row. -/
theorem seek_read_round_trip_witness :
    (exC7st.srcOff = exC7st.cur_pos.byte)
    ∧ (exC7st.read_byte_record_impl ByteRecord.new
        = ((exC7st.read_byte_record_impl ByteRecord.new).1,
           (exC7st.read_byte_record_impl ByteRecord.new).2.1, .ok true))
    ∧ (exC7st2.input = exC7st.input)
    ∧ (exC7st2.first_field_count = exC7st.first_field_count)
    ∧ (exC7st2.flexible = exC7st.flexible)
    ∧ (exC7st2.headers
        = some ⟨⟨[[97], [98], [99]], some ⟨0, 1, 0⟩⟩,
                .ok ⟨[[97], [98], [99]], some ⟨0, 1, 0⟩⟩⟩)
    ∧ (exC7st2.srcOff = exC7st2.cur_pos.byte)
    ∧ ((exC7st.read_byte_record_impl ByteRecord.new).2.1.pos
        = some ⟨6, 2, 1⟩)
    ∧ (((⟨6, 2, 1⟩ : Position).byte = exC7st2.cur_pos.byte →
        exC7st2.eof = false))
    ∧ (((exC7st2.seek ⟨6, 2, 1⟩).2 = .ok ())
      ∧ (∀ rr : ByteRecord,
          (((exC7st2.seek ⟨6, 2, 1⟩).1).read_byte_record_impl rr).2.1.fields
            = (exC7st.read_byte_record_impl ByteRecord.new).2.1.fields
          ∧ (((exC7st2.seek ⟨6, 2, 1⟩).1).read_byte_record_impl rr).2.2
            = .ok true)) :=
  ⟨rfl, rfl, rfl, rfl, rfl, rfl, rfl, rfl, by decide,
   seek_read_round_trip exC7st ByteRecord.new
     (exC7st.read_byte_record_impl ByteRecord.new).1
     (exC7st.read_byte_record_impl ByteRecord.new).2.1
     rfl rfl exC7st2
     ⟨⟨[[97], [98], [99]], some ⟨0, 1, 0⟩⟩,
      .ok ⟨[[97], [98], [99]], some ⟨0, 1, 0⟩⟩⟩
     ⟨6, 2, 1⟩ rfl rfl rfl rfl rfl rfl (by decide)⟩

end CsvAsync
